import Mathlib

/-!
Shallow embedding of `src/serving/chat_api.py` (a RAG orchestration
gateway) and proofs about it.  Python strings are modelled as lists of
characters, Python `None` as `Option.none`, machine floats from the
request body as rationals (the clamp logic is purely order-theoretic),
and the two outbound HTTP calls as explicit `Except` inputs to a
state-passing pipeline function.
-/

namespace ChatApi

/-- A Python string, modelled as its list of characters. -/
abbrev Str := List Char

/-- Python whitespace test used by `str.strip` / `str.rstrip`
(the White_Space code points recognised by CPython). -/
def pyIsSpace (c : Char) : Bool :=
  decide ((0x09 ≤ c.toNat ∧ c.toNat ≤ 0x0d) ∨ (0x1c ≤ c.toNat ∧ c.toNat ≤ 0x1f) ∨
    c.toNat = 0x20 ∨ c.toNat = 0x85 ∨ c.toNat = 0xa0 ∨ c.toNat = 0x1680 ∨
    (0x2000 ≤ c.toNat ∧ c.toNat ≤ 0x200a) ∨ c.toNat = 0x2028 ∨ c.toNat = 0x2029 ∨
    c.toNat = 0x202f ∨ c.toNat = 0x205f ∨ c.toNat = 0x3000)

/-- The line-break characters recognised by Python `str.splitlines`. -/
def isBreak (c : Char) : Bool :=
  decide (c.toNat = 0x0a ∨ c.toNat = 0x0b ∨ c.toNat = 0x0c ∨ c.toNat = 0x0d ∨
    c.toNat = 0x1c ∨ c.toNat = 0x1d ∨ c.toNat = 0x1e ∨ c.toNat = 0x85 ∨
    c.toNat = 0x2028 ∨ c.toNat = 0x2029)

/-- Python `s.rstrip()`: drop trailing whitespace. -/
def pyRstrip (s : Str) : Str :=
  (s.reverse.dropWhile pyIsSpace).reverse

/-- Python `s.lstrip()`: drop leading whitespace. -/
def pyLstrip (s : Str) : Str :=
  s.dropWhile pyIsSpace

/-- Python `s.strip()`: drop whitespace on both sides. -/
def pyStrip (s : Str) : Str :=
  pyLstrip (pyRstrip s)

/-- Python `s.lower()` restricted to ASCII letters (the only case-bearing
characters this program compares). -/
def pyLower (s : Str) : Str :=
  s.map (fun c => if 0x41 ≤ c.toNat ∧ c.toNat ≤ 0x5a then Char.ofNat (c.toNat + 32) else c)

/-- Python `s.startswith(p)`. -/
def pyStartswith (p s : Str) : Bool :=
  p.isPrefixOf s

/-- Python `"\n".join(lines)`. -/
def joinNL : List Str → Str
  | [] => []
  | [l] => l
  | l :: ls => l ++ '\n' :: joinNL ls

/-- Python `"; ".join(parts)`. -/
def joinSemi : List Str → Str
  | [] => []
  | [l] => l
  | l :: ls => l ++ "; ".data ++ joinSemi ls

/-- Worker for Python `str.splitlines`: `acc` holds the characters of the
current line in reverse.  A `\r\n` pair is a single break, and a break at
the end of the string does not open a final empty line. -/
def splitlinesGo : Str → Str → List Str
  | [], acc => [acc.reverse]
  | c :: rest, acc =>
    if isBreak c then
      acc.reverse ::
        (match rest with
         | [] => []
         | d :: rest' =>
           if c.toNat = 0x0d ∧ d.toNat = 0x0a then
             (if rest'.isEmpty then [] else splitlinesGo rest' [])
           else
             splitlinesGo (d :: rest') [])
    else
      splitlinesGo rest (c :: acc)

/-- Python `s.splitlines()`. -/
def pySplitlines (s : Str) : List Str :=
  if s.isEmpty then [] else splitlinesGo s []

/-- Python `a or b` on an optional string `a`: `None` and the empty
string are falsy and fall through to `b`. -/
def pyOr (a : Option Str) (b : Str) : Str :=
  match a with
  | none => b
  | some s => if s.isEmpty then b else s

/-- The `meta` mapping of a retrieval hit: `doc_id`, `section` and an
optional inline `text`, each possibly absent.  The `section` key is
embedded as the field `sectionVal` because its Python name is a Lean
keyword. -/
structure Meta where
  doc_id : Option Str
  sectionVal : Option Str
  text : Option Str
deriving DecidableEq

/-- One retrieval hit: optional top-level `text` and an optional `meta`
mapping (`h.get("meta")` may be missing or `None`). -/
structure Hit where
  text : Option Str
  meta : Option Meta
deriving DecidableEq

/-- `_label` from chat_api.py: citation label of a hit.  Python
truthiness makes a missing and an empty `doc_id` (resp. `section`)
behave alike. -/
def _label (m : Option Meta) : Str :=
  let did := m.bind Meta.doc_id
  let sec := m.bind Meta.sectionVal
  match did with
  | none => "unknown".data
  | some d =>
    if d.isEmpty then "unknown".data
    else
      match sec with
      | none => d
      | some s => if !s.isEmpty ∧ s ≠ "full".data then d ++ "#".data ++ s else d

/-- Loop of `_collect_citations`: the Python `seen` set is carried as a
list with membership semantics, `out` is the accumulated output. -/
def collectGo : List Hit → List Str → List Str → List Str
  | [], _, out => out
  | h :: t, seen, out =>
    let lab := _label h.meta
    if lab ∈ seen then collectGo t seen out
    else collectGo t (lab :: seen) (out ++ [lab])

/-- `_collect_citations` from chat_api.py. -/
def _collect_citations (hits : List Hit) : List Str :=
  collectGo hits [] []

/-- `MAX_CTX_SNIPPETS` (env default 3). -/
def MAX_CTX_SNIPPETS : Nat := 3

/-- `MAX_CTX_CHARS` (env default 2400). -/
def MAX_CTX_CHARS : Nat := 2400

/-- The text length charged to a hit by the budget trim:
`h.get("text") or (h.get("meta") or \x7b\x7d).get("text") or ""`. -/
def hitText (h : Hit) : Str :=
  pyOr h.text (pyOr (h.meta.bind Meta.text) [])

/-- Noise filter step of `_normalize_hits`: drop hits whose lowercased
`doc_id` starts with `recent_queries.jsonl`. -/
def noiseFilter (hits : List Hit) : List Hit :=
  hits.filter (fun h =>
    !pyStartswith "recent_queries.jsonl".data (pyLower ((h.meta.bind Meta.doc_id).getD [])))

/-- Sort step of `_normalize_hits`: Python's stable sort on the Boolean
key `h.get("text") is None` is the stable partition putting hits with
inline text first, each side in input order. -/
def sortByTextFirst (hits : List Hit) : List Hit :=
  hits.filter (fun h => !h.text.isNone) ++ hits.filter (fun h => h.text.isNone)

/-- Dedup step of `_normalize_hits`: keep the first hit of each citation
label; `seen` is the Python set, `acc` the accumulated `dedup` list. -/
def dedupGo : List Hit → List Str → List Hit → List Hit
  | [], _, acc => acc
  | h :: t, seen, acc =>
    let lab := _label h.meta
    if lab ∈ seen then dedupGo t seen acc
    else dedupGo t (lab :: seen) (acc ++ [h])

/-- Dedup-by-label step of `_normalize_hits`. -/
def dedupByLabel (hits : List Hit) : List Hit :=
  dedupGo hits [] []

/-- Budget-trim loop of `_normalize_hits`: `trimmed` is the accumulated
output, `total` the running character total; the loop accepts a hit when
`len(trimmed) < maxS and total + len(txt) <= maxC` and breaks as soon as
`len(trimmed) >= maxS`. -/
def trimLoop (maxS maxC : Nat) : List Hit → List Hit → Nat → List Hit
  | [], trimmed, _ => trimmed
  | h :: t, trimmed, total =>
    let txt := hitText h
    let keep := trimmed.length < maxS ∧ total + txt.length ≤ maxC
    let trimmed' := if keep then trimmed ++ [h] else trimmed
    let total' := if keep then total + txt.length else total
    if maxS ≤ trimmed'.length then trimmed' else trimLoop maxS maxC t trimmed' total'

/-- `_normalize_hits` from chat_api.py: noise filter, stable sort by
text presence, dedup by label, budget trim. -/
def _normalize_hits (hits : List Hit) : List Hit :=
  trimLoop MAX_CTX_SNIPPETS MAX_CTX_CHARS (dedupByLabel (sortByTextFirst (noiseFilter hits))) [] 0

/-- Modelled from the spec (section 4.1 step 4), word for word: walk the
deduplicated sequence in order; accept a hit only if fewer than `maxS`
hits have been accepted and its text keeps the running total within
`maxC`; a hit that would overflow the char budget is skipped without
counting; stop as soon as `maxS` hits have been accepted. -/
def specBudgetTrim (maxS maxC : Nat) : List Hit → Nat → Nat → List Hit
  | [], _, _ => []
  | h :: t, count, total =>
    if maxS ≤ count then []
    else if total + (hitText h).length ≤ maxC then
      h :: specBudgetTrim maxS maxC t (count + 1) (total + (hitText h).length)
    else
      specBudgetTrim maxS maxC t count total

/-- Modelled from the spec (section 4.2): unique labels in first
occurrence order, as a recursive definition. -/
def firstOccurrences : List Str → List Str
  | [] => []
  | a :: t => a :: firstOccurrences (t.filter (fun b => b ≠ a))
termination_by l => l.length
decreasing_by
  exact Nat.lt_succ_of_le (List.length_filter_le _ _)

/-- Dedup of a label list relative to an already-seen set; links the
source loop to `firstOccurrences`. -/
def dedupExcl (seen : List Str) : List Str → List Str
  | [] => []
  | a :: t => if a ∈ seen then dedupExcl seen t else a :: dedupExcl (a :: seen) t

/-- The line test of `_strip_existing_source`:
`ln.strip().lower().startswith("source:")`. -/
def isSourceLine (ln : Str) : Bool :=
  pyStartswith "source:".data (pyLower (pyStrip ln))

/-- `_strip_existing_source` from chat_api.py. -/
def _strip_existing_source (txt : Str) : Str :=
  let lines := pySplitlines (pyRstrip txt)
  let kept := lines.filter (fun ln => !isSourceLine ln)
  pyRstrip (joinNL kept)

/-- The citation footer appended by `/chat` (lines 222-223). -/
def sourceFooter (citations : List Str) : Str :=
  if citations.isEmpty then "\nSource: (none)".data
  else "\nSource: ".data ++ joinSemi citations

/-- The answer finalization of `/chat`: strip any model-emitted source
lines, then append the authoritative citation footer. -/
def finalize (content : Str) (citations : List Str) : Str :=
  _strip_existing_source content ++ sourceFooter citations

/-- `ChatRequest` from chat_api.py; the float `temperature` is modelled
as a rational, `max_tokens` and `k` as integers. -/
structure ChatRequest where
  question : Str
  k : Int := 4
  max_tokens : Int := 200
  temperature : ℚ := 1 / 10
  debug : Bool := false
deriving DecidableEq

/-- One chat message, as produced by the prompt-template builder. -/
structure Msg where
  role : Str
  content : Str
deriving DecidableEq

/-- `MODEL_NAME` (env default). -/
def MODEL_NAME : Str := "smollm2-135m-atharva".data

/-- The OpenAI-compatible payload `/chat` sends to the generation
backend (lines 195-204). -/
structure GenPayload where
  model : Str
  messages : List Msg
  temperature : ℚ
  top_p : ℚ
  max_tokens : Int
  stream : Bool
deriving DecidableEq

/-- Payload construction of `/chat`:
`temperature = max(0.0, min(req.temperature, 0.5))`,
`max_tokens = min(req.max_tokens, 256)`. -/
def buildPayload (req : ChatRequest) (messages : List Msg) : GenPayload :=
  { model := MODEL_NAME
    messages := messages
    temperature := max 0 (min req.temperature (1 / 2))
    top_p := 9 / 10
    max_tokens := min req.max_tokens 256
    stream := false }

/-- The `messages` and `citations` that `/dryrun` computes from the raw
retrieval hits (lines 147-149), for an arbitrary prompt-template
builder `bm` (the external `build_messages`). -/
def dryrunArtifacts (bm : Str → List Hit → List Msg) (q : Str) (rawHits : List Hit) :
    List Msg × List Str :=
  let ctx_hits := _normalize_hits rawHits
  let citations := _collect_citations ctx_hits
  let messages := bm q ctx_hits
  (messages, citations)

/-- The `messages` and `citations` that `/chat` computes from the raw
retrieval hits (lines 187-192) and surfaces in the `debug` payload and
the response. -/
def chatDebugArtifacts (bm : Str → List Hit → List Msg) (req : ChatRequest)
    (rawHits : List Hit) : List Msg × List Str :=
  let ctx_hits := _normalize_hits rawHits
  let citations := _collect_citations ctx_hits
  let messages := bm req.question ctx_hits
  (messages, citations)

/-- The `usage` mapping of a generation response; each count may be
missing. -/
structure Usage where
  prompt_tokens : Option Int
  completion_tokens : Option Int
  total_tokens : Option Int
deriving DecidableEq

/-- `choices[i].message` of a generation response body. -/
structure ChoiceMsg where
  content : Option Str
deriving DecidableEq

/-- One element of `choices` in a generation response body. -/
structure Choice where
  message : Option ChoiceMsg
deriving DecidableEq

/-- A parsed generation response body (`data = rr.json()`); any key may
be absent. -/
structure GenData where
  choices : Option (List Choice)
  usage : Option Usage
deriving DecidableEq

/-- The extraction `data["choices"][0]["message"]["content"]` at line
218: `none` when any step of the expected shape is absent (the Python
code then raises an uncaught KeyError / IndexError / TypeError). -/
def extractContent (d : GenData) : Option Str :=
  ((d.choices.bind List.head?).bind Choice.message).bind ChoiceMsg.content

/-- The telemetry state touched by `/chat`: request and per-stage error
counters, observation counts of the three latency histograms, and the
token gauges. -/
structure Metrics where
  reqsChat : Nat
  errsRetriever : Nat
  errsVllm : Nat
  ragLatObs : Nat
  vllmLatObs : Nat
  e2eLatObs : Nat
  tokPrompt : Int
  tokCompletion : Int
  tokTotal : Int
deriving DecidableEq

/-- A metrics state with every counter and gauge at zero. -/
def Metrics.init : Metrics :=
  ⟨0, 0, 0, 0, 0, 0, 0, 0, 0⟩

/-- How a `/chat` request can abort: an exception in the retrieval call
block, an exception in the generation call block, or the uncaught
extraction error at line 218 when the response body lacks the expected
shape. -/
inductive ChatErr where
  | retrieverExc : ChatErr
  | vllmExc : ChatErr
  | shapeExc : ChatErr
deriving DecidableEq

/-- The successful `/chat` response (the fields the claims mention). -/
structure ChatResp where
  answer : Str
  citations : List Str
  usage : Option Usage
deriving DecidableEq

instance {ε α : Type} [DecidableEq ε] [DecidableEq α] : DecidableEq (Except ε α) := fun a b =>
  match a, b with
  | Except.error x, Except.error y =>
    if h : x = y then Decidable.isTrue (by rw [h])
    else Decidable.isFalse (by intro he; cases he; exact h rfl)
  | Except.ok x, Except.ok y =>
    if h : x = y then Decidable.isTrue (by rw [h])
    else Decidable.isFalse (by intro he; cases he; exact h rfl)
  | Except.error _, Except.ok _ => Decidable.isFalse (by intro he; cases he)
  | Except.ok _, Except.error _ => Decidable.isFalse (by intro he; cases he)

/-- Python `x or 0` on an optional integer (used by the token gauges). -/
def pyOrZero (a : Option Int) : Int :=
  match a with
  | none => 0
  | some n => n

/-- The `/chat` handler as a state-passing function.  The two outbound
calls are inputs: `retr` is the outcome of the retrieval block (lines
175-185), `gen` the outcome of the generation call block (lines
206-216); exceptions inside each block increment that stage error
counter, each `finally` observes that stage latency histogram, the
extraction at line 218 runs after the generation block, and the
end-to-end histogram is observed at line 235 on the success path. -/
def chatRun (retr : Except Unit (List Hit)) (gen : Except Unit GenData) (m : Metrics) :
    Metrics × Except ChatErr ChatResp :=
  let m := { m with reqsChat := m.reqsChat + 1 }
  match retr with
  | Except.error _ =>
    let m := { m with errsRetriever := m.errsRetriever + 1 }
    let m := { m with ragLatObs := m.ragLatObs + 1 }
    (m, Except.error ChatErr.retrieverExc)
  | Except.ok rawHits =>
    let m := { m with ragLatObs := m.ragLatObs + 1 }
    let ctx_hits := _normalize_hits rawHits
    let citations := _collect_citations ctx_hits
    match gen with
    | Except.error _ =>
      let m := { m with errsVllm := m.errsVllm + 1 }
      let m := { m with vllmLatObs := m.vllmLatObs + 1 }
      (m, Except.error ChatErr.vllmExc)
    | Except.ok data =>
      let m := { m with vllmLatObs := m.vllmLatObs + 1 }
      match extractContent data with
      | none => (m, Except.error ChatErr.shapeExc)
      | some content =>
        let answer := finalize content citations
        let usage := data.usage
        let m := { m with
          tokPrompt := pyOrZero (usage.bind Usage.prompt_tokens)
          tokCompletion := pyOrZero (usage.bind Usage.completion_tokens)
          tokTotal := pyOrZero (usage.bind Usage.total_tokens) }
        let m := { m with e2eLatObs := m.e2eLatObs + 1 }
        (m, Except.ok ⟨answer, citations, usage⟩)

/-- Total character length of the evidence text of a hit list. -/
def sumText (hits : List Hit) : Nat :=
  (hits.map (fun h => (hitText h).length)).sum

theorem specBudgetTrim_stop (maxS maxC : Nat) (l : List Hit) (count total : Nat)
    (h : maxS ≤ count) : specBudgetTrim maxS maxC l count total = [] := by
  cases l with
  | nil => rfl
  | cons a t => simp [specBudgetTrim, h]

theorem trimLoop_eq_spec (maxS maxC : Nat) (l : List Hit) :
    ∀ trimmed total, trimmed.length < maxS →
      trimLoop maxS maxC l trimmed total =
        trimmed ++ specBudgetTrim maxS maxC l trimmed.length total := by
  induction l with
  | nil => intro trimmed total _; simp [trimLoop, specBudgetTrim]
  | cons h t ih =>
    intro trimmed total hlt
    by_cases hc : total + (hitText h).length ≤ maxC
    · have hadm : trimmed.length < maxS ∧ total + (hitText h).length ≤ maxC := ⟨hlt, hc⟩
      by_cases hb : maxS ≤ trimmed.length + 1
      · simp only [trimLoop, if_pos hadm, List.length_append, List.length_cons,
          List.length_nil, Nat.zero_add, if_pos hb]
        rw [specBudgetTrim, if_neg (Nat.not_le.mpr hlt), if_pos hc,
          specBudgetTrim_stop maxS maxC t _ _ hb]
      · have hlt' : (trimmed ++ [h]).length < maxS := by
          simpa using Nat.lt_of_not_le hb
        simp only [trimLoop, if_pos hadm, List.length_append, List.length_cons,
          List.length_nil, Nat.zero_add, if_neg hb]
        rw [ih (trimmed ++ [h]) (total + (hitText h).length) hlt']
        rw [specBudgetTrim, if_neg (Nat.not_le.mpr hlt), if_pos hc]
        simp
    · have hadm : ¬ (trimmed.length < maxS ∧ total + (hitText h).length ≤ maxC) := by
        intro hx; exact hc hx.2
      simp only [trimLoop, if_neg hadm, if_neg (Nat.not_le.mpr hlt)]
      rw [ih trimmed total hlt]
      rw [specBudgetTrim, if_neg (Nat.not_le.mpr hlt), if_neg hc]

theorem normalize_eq_specTrim (hits : List Hit) :
    _normalize_hits hits =
      specBudgetTrim MAX_CTX_SNIPPETS MAX_CTX_CHARS
        (dedupByLabel (sortByTextFirst (noiseFilter hits))) 0 0 := by
  unfold _normalize_hits
  have h := trimLoop_eq_spec MAX_CTX_SNIPPETS MAX_CTX_CHARS
    (dedupByLabel (sortByTextFirst (noiseFilter hits))) [] 0 (by decide)
  simpa using h

theorem specBudgetTrim_length (maxS maxC : Nat) (l : List Hit) :
    ∀ count total, count ≤ maxS →
      (specBudgetTrim maxS maxC l count total).length ≤ maxS - count := by
  induction l with
  | nil => intro count total _; simp [specBudgetTrim]
  | cons h t ih =>
    intro count total hle
    by_cases hs : maxS ≤ count
    · simp [specBudgetTrim, hs]
    · by_cases hc : total + (hitText h).length ≤ maxC
      · simp only [specBudgetTrim, if_neg hs, if_pos hc, List.length_cons]
        have := ih (count + 1) (total + (hitText h).length) (Nat.lt_of_not_le hs)
        omega
      · simp only [specBudgetTrim, if_neg hs, if_neg hc]
        exact ih count total hle

theorem specBudgetTrim_sum (maxS maxC : Nat) (l : List Hit) :
    ∀ count total, total ≤ maxC →
      total + sumText (specBudgetTrim maxS maxC l count total) ≤ maxC := by
  induction l with
  | nil => intro count total hle; simpa [specBudgetTrim, sumText] using hle
  | cons h t ih =>
    intro count total hle
    by_cases hs : maxS ≤ count
    · simpa [specBudgetTrim, hs, sumText] using hle
    · by_cases hc : total + (hitText h).length ≤ maxC
      · simp only [specBudgetTrim, if_neg hs, if_pos hc, sumText, List.map_cons, List.sum_cons]
        have := ih (count + 1) (total + (hitText h).length) hc
        simp only [sumText] at this
        omega
      · simp only [specBudgetTrim, if_neg hs, if_neg hc]
        exact ih count total hle

theorem collectGo_eq (hits : List Hit) :
    ∀ seen out, collectGo hits seen out =
      out ++ dedupExcl seen (hits.map (fun h => _label h.meta)) := by
  induction hits with
  | nil => intro seen out; simp [collectGo, dedupExcl]
  | cons h t ih =>
    intro seen out
    by_cases hm : _label h.meta ∈ seen
    · simp only [collectGo, if_pos hm, List.map_cons, dedupExcl, ih]
    · simp only [collectGo, if_neg hm, List.map_cons, dedupExcl, ih]
      simp

theorem filter_notMem_cons (a : Str) (seen : List Str) (t : List Str) :
    (t.filter (fun b => decide (b ∉ seen))).filter (fun b => b ≠ a) =
      t.filter (fun b => decide (b ∉ a :: seen)) := by
  rw [List.filter_filter]
  apply List.filter_congr
  intro b _
  by_cases h1 : b = a <;> by_cases h2 : b ∈ seen <;> simp [h1, h2]

theorem dedupExcl_eq_firstOccurrences (l : List Str) :
    ∀ seen, dedupExcl seen l = firstOccurrences (l.filter (fun b => decide (b ∉ seen))) := by
  induction l with
  | nil => intro seen; simp [dedupExcl, firstOccurrences]
  | cons a t ih =>
    intro seen
    by_cases hm : a ∈ seen
    · simp only [dedupExcl, if_pos hm, ih]
      congr 1
      simp [List.filter_cons, hm]
    · simp only [dedupExcl, if_neg hm, ih]
      have hstep : List.filter (fun b => decide (b ∉ seen)) (a :: t) =
          a :: List.filter (fun b => decide (b ∉ seen)) t := by
        simp [List.filter_cons, hm]
      rw [hstep, firstOccurrences, filter_notMem_cons]

theorem dedupExcl_nodup (l : List Str) :
    ∀ seen, (dedupExcl seen l).Nodup ∧ ∀ a ∈ dedupExcl seen l, a ∉ seen := by
  induction l with
  | nil => intro seen; simp [dedupExcl]
  | cons a t ih =>
    intro seen
    by_cases hm : a ∈ seen
    · simp only [dedupExcl, if_pos hm]
      exact ih seen
    · simp only [dedupExcl, if_neg hm]
      obtain ⟨hnd, hmem⟩ := ih (a :: seen)
      refine ⟨List.nodup_cons.mpr ⟨?_, hnd⟩, ?_⟩
      · intro hin
        exact hmem a hin (List.mem_cons_self a seen)
      · intro b hb
        rcases List.mem_cons.mp hb with hb | hb
        · subst hb; exact hm
        · intro hbs
          exact hmem b hb (List.mem_cons_of_mem a hbs)

/-- C1: the budget-trim step of `_normalize_hits` walks the deduplicated
sequence in order, accepting a hit only when fewer than
`MAX_CTX_SNIPPETS` hits are accepted and its text keeps the running
total within `MAX_CTX_CHARS`; a char-overflowing hit is skipped without
counting and later hits are still considered, and the walk stops as soon
as `MAX_CTX_SNIPPETS` hits are accepted: the source loop equals the
spec-side walk `specBudgetTrim` on the deduplicated sequence. -/
theorem C1_budget_trim_policy (hits : List Hit) :
    _normalize_hits hits =
      specBudgetTrim MAX_CTX_SNIPPETS MAX_CTX_CHARS
        (dedupByLabel (sortByTextFirst (noiseFilter hits))) 0 0 :=
  normalize_eq_specTrim hits

/-- C4: the normalized hit list has at most `MAX_CTX_SNIPPETS` elements
and the total length of its evidence text is at most `MAX_CTX_CHARS`. -/
theorem C4_normalize_bounds (hits : List Hit) :
    (_normalize_hits hits).length ≤ MAX_CTX_SNIPPETS ∧
      sumText (_normalize_hits hits) ≤ MAX_CTX_CHARS := by
  rw [normalize_eq_specTrim]
  constructor
  · simpa using specBudgetTrim_length MAX_CTX_SNIPPETS MAX_CTX_CHARS
      (dedupByLabel (sortByTextFirst (noiseFilter hits))) 0 0 (Nat.zero_le _)
  · simpa using specBudgetTrim_sum MAX_CTX_SNIPPETS MAX_CTX_CHARS
      (dedupByLabel (sortByTextFirst (noiseFilter hits))) 0 0 (Nat.zero_le _)

/-- C8: `_collect_citations` returns pairwise distinct labels, in order
of first occurrence of each label in the sequence it is applied to (in
the routes, the normalized evidence). -/
theorem C8_citations_distinct_first_occurrence (hits : List Hit) :
    (_collect_citations hits).Nodup ∧
      _collect_citations hits =
        firstOccurrences (hits.map (fun h => _label h.meta)) := by
  have h1 : _collect_citations hits = dedupExcl [] (hits.map (fun h => _label h.meta)) := by
    simpa using collectGo_eq hits [] []
  constructor
  · rw [h1]
    exact (dedupExcl_nodup _ []).1
  · rw [h1, dedupExcl_eq_firstOccurrences]
    congr 1
    simp

/-- C5: the outbound generation payload always has its temperature in
[0, 1/2] and its max_tokens at most 256; in particular a request with
temperature 9/10 and max_tokens 500 yields temperature 1/2 and
max_tokens 256. -/
theorem C5_payload_clamped :
    (∀ (req : ChatRequest) (ms : List Msg),
        0 ≤ (buildPayload req ms).temperature ∧
        (buildPayload req ms).temperature ≤ 1 / 2 ∧
        (buildPayload req ms).max_tokens ≤ 256) ∧
    (∀ ms : List Msg,
        (buildPayload { question := "q".data, max_tokens := 500, temperature := 9 / 10 } ms).temperature = 1 / 2 ∧
        (buildPayload { question := "q".data, max_tokens := 500, temperature := 9 / 10 } ms).max_tokens = 256) := by
  constructor
  · intro req ms
    refine ⟨le_max_left _ _, max_le (by norm_num) (min_le_right _ _), min_le_right _ _⟩
  · intro ms
    constructor
    · show max 0 (min ((9 : ℚ) / 10) (1 / 2)) = 1 / 2
      norm_num
    · show min (500 : Int) 256 = 256
      norm_num

/-- C10: the max_tokens clamp has no lower bound: any caller value at
most 256, including zero and negative values, is sent unchanged. -/
theorem C10_max_tokens_no_lower_bound (req : ChatRequest) (ms : List Msg)
    (h : req.max_tokens ≤ 256) :
    (buildPayload req ms).max_tokens = req.max_tokens := by
  simp only [buildPayload]
  exact min_eq_left h

theorem C10_max_tokens_no_lower_bound_witness :
    ((-7 : Int) ≤ 256) ∧
      (buildPayload { question := "q".data, max_tokens := -7 } []).max_tokens = -7 :=
  ⟨by decide, C10_max_tokens_no_lower_bound { question := "q".data, max_tokens := -7 } [] (by decide)⟩

/-- C9: for any prompt-template builder, `/dryrun` and `/chat` with
debug compute identical messages and citations from the same question
and the same retrieval response. -/
theorem C9_dryrun_matches_chat_debug (bm : Str → List Hit → List Msg) (req : ChatRequest)
    (rawHits : List Hit) :
    dryrunArtifacts bm req.question rawHits = chatDebugArtifacts bm req rawHits := rfl

/-- C7 counterexample: for a hit whose `meta` has `doc_id` "B" and a
present but empty `section`, the claim's case split predicts the label
"B#" (section present and not equal to "full"), but `_label` returns
"B": Python truthiness treats an empty section like an absent one. -/
theorem C7_counterexample :
    _label (some ⟨some "B".data, some "".data, none⟩) = "B".data ∧
      _label (some ⟨some "B".data, some "".data, none⟩) ≠ "B".data ++ "#".data ++ "".data := by
  decide

/-- C7 amended: the label is "unknown" when `doc_id` is absent or
empty; `doc_id` alone when `section` is absent, empty, or "full"; and
`doc_id#section` when `section` is present, nonempty and not "full". -/
theorem C7_label_cases (m : Option Meta) :
    (m.bind Meta.doc_id = none ∨ m.bind Meta.doc_id = some [] → _label m = "unknown".data) ∧
    (∀ d, m.bind Meta.doc_id = some d → d ≠ [] →
      ((m.bind Meta.sectionVal = none ∨ m.bind Meta.sectionVal = some [] ∨
          m.bind Meta.sectionVal = some "full".data) → _label m = d) ∧
      (∀ s, m.bind Meta.sectionVal = some s → s ≠ [] → s ≠ "full".data →
          _label m = d ++ "#".data ++ s)) := by
  constructor
  · intro h
    rcases h with h | h <;> simp [_label, h]
  · intro d hd hdn
    constructor
    · intro hs
      rcases hs with h | h | h <;>
        simp [_label, hd, hdn, h, List.isEmpty_iff]
    · intro s hs hsn hsf
      simp [_label, hd, hdn, hs, hsn, hsf, List.isEmpty_iff]

theorem C7_label_cases_witness :
    _label (some ⟨some "B".data, some "full".data, none⟩) = "B".data :=
  ((C7_label_cases (some ⟨some "B".data, some "full".data, none⟩)).2 "B".data rfl
    (by decide)).1 (Or.inr (Or.inr rfl))

/-- C2 counterexample: a generation response body lacking the expected
shape makes `/chat` abort with the uncaught extraction error of line
218, but the generation-stage error counter is NOT incremented, unlike
other generation-stage failures (the extraction runs after the
try/except block that increments the counter). -/
theorem C2_counterexample :
    (chatRun (Except.ok []) (Except.ok ⟨none, none⟩) Metrics.init).2 =
        Except.error ChatErr.shapeExc ∧
      ¬ (chatRun (Except.ok []) (Except.ok ⟨none, none⟩) Metrics.init).1.errsVllm =
        Metrics.init.errsVllm + 1 := by
  decide

/-- C2 amended: when the generation response body lacks the expected
shape, `/chat` fails with the uncaught extraction error and the
generation-stage error counter stays unchanged (it is incremented only
for failures inside the generation call block). -/
theorem C2_shape_error_uncounted (hits : List Hit) (data : GenData) (m : Metrics)
    (h : extractContent data = none) :
    (chatRun (Except.ok hits) (Except.ok data) m).2 = Except.error ChatErr.shapeExc ∧
      (chatRun (Except.ok hits) (Except.ok data) m).1.errsVllm = m.errsVllm := by
  simp [chatRun, h]

theorem C2_shape_error_uncounted_witness :
    extractContent ⟨none, none⟩ = none ∧
      (chatRun (Except.ok []) (Except.ok ⟨none, none⟩) Metrics.init).2 =
        Except.error ChatErr.shapeExc ∧
      (chatRun (Except.ok []) (Except.ok ⟨none, none⟩) Metrics.init).1.errsVllm =
        Metrics.init.errsVllm :=
  ⟨rfl, (C2_shape_error_uncounted [] ⟨none, none⟩ Metrics.init rfl).1,
    (C2_shape_error_uncounted [] ⟨none, none⟩ Metrics.init rfl).2⟩

/-- C3 counterexample: on a retrieval failure the pipeline exits with an
error but the end-to-end latency histogram is not observed (line 235 is
not in a finally block), contradicting the claim that all three
histograms are recorded on every exit path. -/
theorem C3_counterexample :
    (chatRun (Except.error ()) (Except.ok ⟨none, none⟩) Metrics.init).2 =
        Except.error ChatErr.retrieverExc ∧
      ¬ (chatRun (Except.error ()) (Except.ok ⟨none, none⟩) Metrics.init).1.e2eLatObs =
        Metrics.init.e2eLatObs + 1 := by
  decide

/-- C3 amended: the retrieval histogram is observed on every exit path,
the generation histogram on every path that reaches the generation call
(both are in finally blocks), but the end-to-end histogram is observed
exactly on the success path. -/
theorem C3_latency_observation (retr : Except Unit (List Hit)) (gen : Except Unit GenData)
    (m : Metrics) :
    (chatRun retr gen m).1.ragLatObs = m.ragLatObs + 1 ∧
    ((∃ hits, retr = Except.ok hits) →
        (chatRun retr gen m).1.vllmLatObs = m.vllmLatObs + 1) ∧
    (retr = Except.error () → (chatRun retr gen m).1.vllmLatObs = m.vllmLatObs) ∧
    ((∃ resp, (chatRun retr gen m).2 = Except.ok resp) ↔
        (chatRun retr gen m).1.e2eLatObs = m.e2eLatObs + 1) := by
  cases retr with
  | error u =>
    refine ⟨?_, ?_, ?_, ?_⟩
    · simp [chatRun]
    · rintro ⟨hits, h⟩
      cases h
    · intro _
      simp [chatRun]
    · constructor
      · rintro ⟨resp, h⟩
        simp [chatRun] at h
      · intro h
        simp [chatRun] at h
  | ok rawHits =>
    cases gen with
    | error u =>
      refine ⟨?_, ?_, ?_, ?_⟩
      · simp [chatRun]
      · intro _
        simp [chatRun]
      · rintro ⟨⟩
      · constructor
        · rintro ⟨resp, h⟩
          simp [chatRun] at h
        · intro h
          simp [chatRun] at h
    | ok data =>
      cases he : extractContent data with
      | none =>
        refine ⟨?_, ?_, ?_, ?_⟩
        · simp [chatRun, he]
        · intro _
          simp [chatRun, he]
        · rintro ⟨⟩
        · constructor
          · rintro ⟨resp, h⟩
            simp [chatRun, he] at h
          · intro h
            simp [chatRun, he] at h
      | some content =>
        refine ⟨?_, ?_, ?_, ?_⟩
        · simp [chatRun, he]
        · intro _
          simp [chatRun, he]
        · rintro ⟨⟩
        · constructor
          · intro _
            simp [chatRun, he]
          · intro _
            have h2 : (chatRun (Except.ok rawHits) (Except.ok data) m).2 =
                Except.ok ⟨finalize content (_collect_citations (_normalize_hits rawHits)),
                  _collect_citations (_normalize_hits rawHits), data.usage⟩ := by
              simp [chatRun, he]
            exact ⟨_, h2⟩

theorem dropWhile_dropWhile (p : Char → Bool) (l : Str) :
    (l.dropWhile p).dropWhile p = l.dropWhile p := by
  induction l with
  | nil => rfl
  | cons c t ih =>
    by_cases h : p c
    · simp [List.dropWhile_cons, h, ih]
    · simp [List.dropWhile_cons, h]

theorem pyRstrip_idem (s : Str) : pyRstrip (pyRstrip s) = pyRstrip s := by
  simp [pyRstrip, List.reverse_reverse, dropWhile_dropWhile]

theorem pyRstrip_append (a b : Str) (h : pyRstrip b ≠ []) :
    pyRstrip (a ++ b) = a ++ pyRstrip b := by
  have hb : (List.dropWhile pyIsSpace b.reverse).isEmpty = false := by
    rw [List.isEmpty_eq_false]
    intro h0
    exact h (by simp [pyRstrip, h0])
  simp [pyRstrip, List.reverse_append, List.dropWhile_append, hb]

theorem pyRstrip_append_nil (a b : Str) (h : pyRstrip b = []) :
    pyRstrip (a ++ b) = pyRstrip a := by
  have hb : (List.dropWhile pyIsSpace b.reverse).isEmpty = true := by
    rw [List.isEmpty_eq_true]
    have := congrArg List.reverse h
    simpa [pyRstrip] using this
  simp [pyRstrip, List.reverse_append, List.dropWhile_append, hb]

theorem pyRstrip_eq_nil_iff (s : Str) : pyRstrip s = [] ↔ ∀ c ∈ s, pyIsSpace c = true := by
  rw [pyRstrip, List.reverse_eq_nil_iff, List.dropWhile_eq_nil_iff]
  constructor
  · intro h c hc
    exact h c (List.mem_reverse.mpr hc)
  · intro h c hc
    exact h c (List.mem_reverse.mp hc)

theorem pyRstrip_cons (c : Char) (t : Str) (h : pyRstrip t ≠ []) :
    pyRstrip (c :: t) = c :: pyRstrip t := by
  have := pyRstrip_append [c] t h
  simpa using this

theorem mem_pyRstrip (c : Char) (s : Str) (h : c ∈ pyRstrip s) : c ∈ s := by
  rw [pyRstrip, List.mem_reverse] at h
  exact List.mem_reverse.mp ((List.dropWhile_sublist pyIsSpace).subset h)

theorem dropWhile_head_not (p : Char → Bool) (l : Str) (c : Char)
    (h : (l.dropWhile p).head? = some c) : p c = false := by
  induction l with
  | nil => simp [List.dropWhile] at h
  | cons d t ih =>
    by_cases hd : p d
    · rw [List.dropWhile_cons, if_pos hd] at h
      exact ih h
    · rw [List.dropWhile_cons, if_neg hd] at h
      simp at h
      subst h
      simpa using hd

theorem pyRstrip_getLast_not_space (s : Str) (c : Char)
    (h : (pyRstrip s).getLast? = some c) : pyIsSpace c = false := by
  rw [List.getLast?_eq_head?_reverse] at h
  rw [pyRstrip, List.reverse_reverse] at h
  exact dropWhile_head_not pyIsSpace s.reverse c h

theorem isBreak_isSpace (c : Char) (h : isBreak c = true) : pyIsSpace c = true := by
  simp only [isBreak, decide_eq_true_eq] at h
  simp only [pyIsSpace, decide_eq_true_eq]
  omega

theorem pyLstrip_cons_not_space (c : Char) (t : Str) (h : pyIsSpace c = false) :
    pyLstrip (c :: t) = c :: t := by
  simp [pyLstrip, List.dropWhile_cons, h]

theorem pyStrip_pyRstrip (s : Str) : pyStrip (pyRstrip s) = pyStrip s := by
  simp [pyStrip, pyRstrip_idem]

theorem isSourceLine_pyRstrip (ln : Str) : isSourceLine (pyRstrip ln) = isSourceLine ln := by
  simp [isSourceLine, pyStrip_pyRstrip]

theorem splitlinesGo_nil (acc : Str) : splitlinesGo [] acc = [acc.reverse] := rfl

theorem splitlinesGo_nobreak (c : Char) (rest acc : Str) (hc : isBreak c = false) :
    splitlinesGo (c :: rest) acc = splitlinesGo rest (c :: acc) := by
  rw [splitlinesGo.eq_def]
  simp [hc]

theorem splitlinesGo_break_nil (c : Char) (acc : Str) (hc : isBreak c = true) :
    splitlinesGo [c] acc = [acc.reverse] := by
  rw [splitlinesGo.eq_def]
  simp [hc]

theorem splitlinesGo_lf (d : Char) (rest' acc : Str) :
    splitlinesGo ('\n' :: d :: rest') acc = acc.reverse :: splitlinesGo (d :: rest') [] := by
  rw [splitlinesGo.eq_def]
  have hd : ¬(Char.toNat '\n' = 13 ∧ d.toNat = 10) := fun hx => absurd hx.1 (by decide)
  have hb : isBreak '\n' = true := by decide
  simp [hd, hb]

theorem splitlinesGo_break_cons (c d : Char) (rest' acc : Str) (hc : isBreak c = true) :
    splitlinesGo (c :: d :: rest') acc =
      acc.reverse ::
        (if c.toNat = 0x0d ∧ d.toNat = 0x0a then
          (if rest'.isEmpty then [] else splitlinesGo rest' [])
        else splitlinesGo (d :: rest') []) := by
  rw [splitlinesGo.eq_def]
  simp [hc]

theorem splitlinesGo_ne_nil (s : Str) : ∀ acc, splitlinesGo s acc ≠ [] := by
  induction s with
  | nil => intro acc; simp [splitlinesGo_nil]
  | cons c t ih =>
    intro acc
    by_cases hc : isBreak c
    · cases t with
      | nil => simp [splitlinesGo_break_nil c acc hc]
      | cons d t' => simp [splitlinesGo_break_cons c d t' acc hc]
    · rw [splitlinesGo_nobreak c t acc (by simpa using hc)]
      exact ih (c :: acc)

theorem splitlinesGo_single (s : Str) :
    (∀ ch ∈ s, isBreak ch = false) → ∀ acc, splitlinesGo s acc = [acc.reverse ++ s] := by
  induction s with
  | nil => intro _ acc; simp [splitlinesGo_nil]
  | cons c t ih =>
    intro hs acc
    have hc : isBreak c = false := hs c (by simp)
    have ht : ∀ ch ∈ t, isBreak ch = false := fun ch h => hs ch (by simp [h])
    rw [splitlinesGo_nobreak c t acc hc, ih ht (c :: acc)]
    simp

theorem getLast_tail_ne (c : Char) (t : Str) (h : (c :: t).getLast? ≠ some '\n') :
    t.getLast? ≠ some '\n' := by
  cases t with
  | nil => simp
  | cons x xs =>
    intro h0
    exact h (by rw [List.getLast?_cons_cons]; exact h0)

theorem splitlinesGo_line_break (l : Str) :
    (∀ ch ∈ l, isBreak ch = false) → ∀ (rest acc : Str),
      splitlinesGo (l ++ '\n' :: rest) acc =
        (acc.reverse ++ l) :: (if rest.isEmpty then [] else splitlinesGo rest []) := by
  induction l with
  | nil =>
    intro _ rest acc
    cases rest with
    | nil => simp [splitlinesGo_break_nil '\n' acc (by decide)]
    | cons d r' =>
      rw [List.nil_append, splitlinesGo_lf d r' acc]
      simp
  | cons c t ih =>
    intro hl rest acc
    have hc : isBreak c = false := hl c (by simp)
    rw [List.cons_append, splitlinesGo_nobreak c _ acc hc,
      ih (fun ch h => hl ch (by simp [h])) rest (c :: acc)]
    simp

theorem joinNL_cons (x : Str) (L : List Str) (h : L ≠ []) :
    joinNL (x :: L) = x ++ '\n' :: joinNL L := by
  cases L with
  | nil => exact absurd rfl h
  | cons y ys => rfl

theorem splitlinesGo_append_line (a : Str) :
    (∀ ch ∈ a, isBreak ch = true → ch = '\n') → a.getLast? ≠ some '\n' →
      ∀ (b : Str), b ≠ [] → (∀ ch ∈ b, isBreak ch = false) →
      ∀ acc, splitlinesGo (a ++ '\n' :: b) acc = splitlinesGo a acc ++ [b] := by
  induction a with
  | nil =>
    intro _ _ b hb hbf acc
    cases b with
    | nil => exact absurd rfl hb
    | cons d r' =>
      rw [List.nil_append, splitlinesGo_lf d r' acc, splitlinesGo_single (d :: r') hbf [],
        splitlinesGo_nil]
      simp
  | cons c t ih =>
    intro ha hlast b hb hbf acc
    by_cases hc : isBreak c
    · have hcn : c = '\n' := ha c (by simp) (by simpa using hc)
      subst hcn
      cases t with
      | nil => exact absurd (by simp) hlast
      | cons d t' =>
        have e1 : ('\n' :: d :: t') ++ '\n' :: b = '\n' :: d :: (t' ++ '\n' :: b) := by simp
        have e2 : d :: (t' ++ '\n' :: b) = (d :: t') ++ '\n' :: b := by simp
        rw [e1, splitlinesGo_lf d _ acc, e2,
          ih (fun ch h => ha ch (by simp [h])) (getLast_tail_ne _ _ hlast) b hb hbf [],
          splitlinesGo_lf d t' acc]
        simp
    · have hcf : isBreak c = false := by simpa using hc
      have e1 : (c :: t) ++ '\n' :: b = c :: (t ++ '\n' :: b) := rfl
      rw [e1, splitlinesGo_nobreak c _ acc hcf, splitlinesGo_nobreak c t acc hcf]
      exact ih (fun ch h => ha ch (by simp [h])) (getLast_tail_ne _ _ hlast) b hb hbf (c :: acc)

theorem joinNL_splitlinesGo (s : Str) :
    (∀ ch ∈ s, isBreak ch = true → ch = '\n') → s.getLast? ≠ some '\n' →
      ∀ acc, joinNL (splitlinesGo s acc) = acc.reverse ++ s := by
  induction s with
  | nil => intro _ _ acc; simp [splitlinesGo_nil, joinNL]
  | cons c t ih =>
    intro ha hlast acc
    by_cases hc : isBreak c
    · have hcn : c = '\n' := ha c (by simp) (by simpa using hc)
      subst hcn
      cases t with
      | nil => exact absurd (by simp) hlast
      | cons d t' =>
        rw [splitlinesGo_lf d t' acc,
          joinNL_cons _ _ (splitlinesGo_ne_nil (d :: t') []),
          ih (fun ch h => ha ch (by simp [h])) (getLast_tail_ne _ _ hlast) []]
        simp
    · have hcf : isBreak c = false := by simpa using hc
      rw [splitlinesGo_nobreak c t acc hcf,
        ih (fun ch h => ha ch (by simp [h])) (getLast_tail_ne _ _ hlast) (c :: acc)]
      simp

theorem splitlinesGo_breakFree_n : ∀ (n : Nat) (s : Str), s.length ≤ n →
    ∀ acc, (∀ ch ∈ acc, isBreak ch = false) →
    ∀ ln ∈ splitlinesGo s acc, ∀ ch ∈ ln, isBreak ch = false := by
  intro n
  induction n with
  | zero =>
    intro s hs acc hacc ln hln ch hch
    have hs0 : s = [] := List.eq_nil_of_length_eq_zero (Nat.le_zero.mp hs)
    subst hs0
    rw [splitlinesGo_nil] at hln
    simp only [List.mem_singleton] at hln
    subst hln
    exact hacc ch (List.mem_reverse.mp hch)
  | succ n ihn =>
    intro s hs acc hacc ln hln ch hch
    cases s with
    | nil =>
      rw [splitlinesGo_nil] at hln
      simp only [List.mem_singleton] at hln
      subst hln
      exact hacc ch (List.mem_reverse.mp hch)
    | cons c rest =>
      by_cases hc : isBreak c
      · cases rest with
        | nil =>
          rw [splitlinesGo_break_nil c acc (by simpa using hc)] at hln
          simp only [List.mem_singleton] at hln
          subst hln
          exact hacc ch (List.mem_reverse.mp hch)
        | cons d r' =>
          rw [splitlinesGo_break_cons c d r' acc (by simpa using hc)] at hln
          rcases List.mem_cons.mp hln with h1 | h1
          · subst h1; exact hacc ch (List.mem_reverse.mp hch)
          · by_cases hcd : c.toNat = 0x0d ∧ d.toNat = 0x0a
            · rw [if_pos hcd] at h1
              by_cases hr : r'.isEmpty
              · rw [if_pos hr] at h1; simp at h1
              · rw [if_neg hr] at h1
                refine ihn r' ?_ [] (by simp) ln h1 ch hch
                simp only [List.length_cons] at hs
                omega
            · rw [if_neg hcd] at h1
              refine ihn (d :: r') ?_ [] (by simp) ln h1 ch hch
              simp only [List.length_cons] at hs ⊢
              omega
      · have hcf : isBreak c = false := by simpa using hc
        rw [splitlinesGo_nobreak c rest acc hcf] at hln
        refine ihn rest ?_ (c :: acc) ?_ ln hln ch hch
        · simp only [List.length_cons] at hs
          omega
        · intro x hx
          rcases List.mem_cons.mp hx with h | h
          · subst h; exact hcf
          · exact hacc x h

theorem pySplitlines_breakFree (s : Str) (ln : Str) (hln : ln ∈ pySplitlines s) :
    ∀ ch ∈ ln, isBreak ch = false := by
  rw [pySplitlines] at hln
  split at hln
  · simp at hln
  · exact fun ch hch => splitlinesGo_breakFree_n s.length s le_rfl [] (by simp) ln hln ch hch

theorem mem_joinNL (lls : List Str) (c : Char) (h : c ∈ joinNL lls) :
    c = '\n' ∨ ∃ l ∈ lls, c ∈ l := by
  induction lls with
  | nil => simp [joinNL] at h
  | cons l ls ih =>
    cases ls with
    | nil =>
      right
      exact ⟨l, by simp, by simpa [joinNL] using h⟩
    | cons l2 ls2 =>
      rw [joinNL_cons l (l2 :: ls2) (by simp)] at h
      rcases List.mem_append.mp h with h1 | h1
      · right; exact ⟨l, by simp, h1⟩
      · rcases List.mem_cons.mp h1 with h2 | h2
        · left; exact h2
        · rcases ih h2 with h3 | ⟨l', hl', hc'⟩
          · left; exact h3
          · right; exact ⟨l', List.mem_cons_of_mem _ hl', hc'⟩

theorem stripLines_no_source (lls : List Str) :
    (∀ l ∈ lls, ∀ ch ∈ l, isBreak ch = false) →
    (∀ l ∈ lls, isSourceLine l = false) →
    ∀ ln ∈ splitlinesGo (pyRstrip (joinNL lls)) [], isSourceLine ln = false := by
  induction lls with
  | nil =>
    intro _ _ ln hln
    rw [show pyRstrip (joinNL ([] : List Str)) = [] from rfl, splitlinesGo_nil] at hln
    simp only [List.mem_singleton] at hln
    subst hln
    decide
  | cons l ls ih =>
    intro hbf hP
    have hlbf : ∀ ch ∈ l, isBreak ch = false := hbf l (by simp)
    have hlP : isSourceLine l = false := hP l (by simp)
    have hrlbf : ∀ ch ∈ pyRstrip l, isBreak ch = false :=
      fun ch hch => hlbf ch (mem_pyRstrip ch l hch)
    cases ls with
    | nil =>
      intro ln hln
      rw [show joinNL [l] = l from rfl,
        splitlinesGo_single (pyRstrip l) hrlbf []] at hln
      simp only [List.mem_singleton] at hln
      subst hln
      show isSourceLine (List.reverse [] ++ pyRstrip l) = false
      rw [List.reverse_nil, List.nil_append, isSourceLine_pyRstrip]
      exact hlP
    | cons l2 ls2 =>
      intro ln hln
      rw [joinNL_cons l (l2 :: ls2) (by simp)] at hln
      by_cases hr : pyRstrip (joinNL (l2 :: ls2)) = []
      · have h1 : pyRstrip ('\n' :: joinNL (l2 :: ls2)) = [] := by
          have h0 := pyRstrip_append_nil ['\n'] (joinNL (l2 :: ls2)) hr
          rw [show ('\n' :: joinNL (l2 :: ls2)) = ['\n'] ++ joinNL (l2 :: ls2) from rfl, h0]
          decide
        rw [pyRstrip_append_nil l _ h1,
          splitlinesGo_single (pyRstrip l) hrlbf []] at hln
        simp only [List.mem_singleton] at hln
        subst hln
        simpa [isSourceLine_pyRstrip] using hlP
      · have h1 : pyRstrip ('\n' :: joinNL (l2 :: ls2)) =
            '\n' :: pyRstrip (joinNL (l2 :: ls2)) := pyRstrip_cons '\n' _ hr
        have h2 : pyRstrip (l ++ '\n' :: joinNL (l2 :: ls2)) =
            l ++ '\n' :: pyRstrip (joinNL (l2 :: ls2)) := by
          rw [pyRstrip_append l _ (by rw [h1]; simp), h1]
        rw [h2, splitlinesGo_line_break l hlbf (pyRstrip (joinNL (l2 :: ls2))) []] at hln
        rcases List.mem_cons.mp hln with h3 | h3
        · subst h3
          simpa using hlP
        · rw [if_neg (by simp [List.isEmpty_iff, hr])] at h3
          exact ih (fun a ha => hbf a (List.mem_cons_of_mem _ ha))
            (fun a ha => hP a (List.mem_cons_of_mem _ ha)) ln h3

theorem stripSource_spec (x : Str) :
    pyRstrip (_strip_existing_source x) = _strip_existing_source x ∧
    (∀ ch ∈ _strip_existing_source x, isBreak ch = true → ch = '\n') ∧
    (_strip_existing_source x).getLast? ≠ some '\n' ∧
    (∀ ln ∈ splitlinesGo (_strip_existing_source x) [], isSourceLine ln = false) := by
  have hKbf : ∀ l ∈ (pySplitlines (pyRstrip x)).filter (fun ln => !isSourceLine ln),
      ∀ ch ∈ l, isBreak ch = false :=
    fun l hl => pySplitlines_breakFree (pyRstrip x) l (List.mem_of_mem_filter hl)
  have hKP : ∀ l ∈ (pySplitlines (pyRstrip x)).filter (fun ln => !isSourceLine ln),
      isSourceLine l = false := by
    intro l hl
    have := List.of_mem_filter hl
    simpa using this
  have hy : _strip_existing_source x =
      pyRstrip (joinNL ((pySplitlines (pyRstrip x)).filter (fun ln => !isSourceLine ln))) := rfl
  refine ⟨?_, ?_, ?_, ?_⟩
  · rw [hy]
    exact pyRstrip_idem _
  · intro ch hch hbr
    rw [hy] at hch
    have hm := mem_pyRstrip ch _ hch
    rcases mem_joinNL _ ch hm with h | ⟨l, hl, hc⟩
    · exact h
    · exact absurd hbr (by simp [hKbf l hl ch hc])
  · intro h0
    rw [hy] at h0
    have := pyRstrip_getLast_not_space _ '\n' h0
    exact absurd this (by decide)
  · rw [hy]
    exact stripLines_no_source _ hKbf hKP

theorem pyRstrip_source_ne_nil (body : Str) : pyRstrip ("Source: ".data ++ body) ≠ [] := by
  intro h0
  rw [pyRstrip_eq_nil_iff] at h0
  have := h0 'S' (List.mem_append.mpr (Or.inl (by decide)))
  exact absurd this (by decide)

theorem pyLstrip_source (X : Str) :
    pyLstrip ("Source: ".data ++ X) = "Source: ".data ++ X := by
  show pyLstrip ('S' :: ("ource: ".data ++ X)) = 'S' :: ("ource: ".data ++ X)
  exact pyLstrip_cons_not_space 'S' _ (by decide)

theorem pyStartswith_append (p rest : Str) : pyStartswith p (p ++ rest) = true := by
  rw [pyStartswith, List.isPrefixOf_iff_prefix]
  exact List.prefix_append _ _

theorem isSourceLine_footer (body : Str) :
    isSourceLine (pyRstrip ("Source: ".data ++ body)) = true := by
  rw [isSourceLine_pyRstrip, isSourceLine]
  by_cases hb : pyRstrip body = []
  · rw [pyStrip, pyRstrip_append_nil _ _ hb]
    decide
  · rw [pyStrip, pyRstrip_append _ _ hb, pyLstrip_source]
    rw [show pyLower ("Source: ".data ++ pyRstrip body) =
      pyLower "Source: ".data ++ pyLower (pyRstrip body) from List.map_append _ _ _]
    rw [show pyLower "Source: ".data = "source: ".data from by decide]
    rw [show ("source: ".data ++ pyLower (pyRstrip body)) =
      "source:".data ++ (' ' :: pyLower (pyRstrip body)) from rfl]
    exact pyStartswith_append _ _

theorem joinSemi_breakFree (c : List Str) :
    (∀ s ∈ c, ∀ ch ∈ s, isBreak ch = false) → ∀ ch ∈ joinSemi c, isBreak ch = false := by
  induction c with
  | nil => intro _ ch hch; simp [joinSemi] at hch
  | cons s cs ih =>
    intro hc ch hch
    cases cs with
    | nil => exact hc s (by simp) ch (by simpa [joinSemi] using hch)
    | cons s2 cs2 =>
      rw [show joinSemi (s :: s2 :: cs2) = s ++ "; ".data ++ joinSemi (s2 :: cs2) from rfl] at hch
      rcases List.mem_append.mp hch with h1 | h1
      · rcases List.mem_append.mp h1 with h2 | h2
        · exact hc s (by simp) ch h2
        · have : ∀ d ∈ "; ".data, isBreak d = false := by decide
          exact this ch h2
      · exact ih (fun a ha => hc a (List.mem_cons_of_mem _ ha)) ch h1

theorem stripSource_append_footer (x body : Str)
    (hbf : ∀ ch ∈ body, isBreak ch = false) :
    _strip_existing_source (_strip_existing_source x ++ '\n' :: ("Source: ".data ++ body)) =
      _strip_existing_source x := by
  obtain ⟨hrs, hLF, hlast, hP⟩ := stripSource_spec x
  have hflrs : pyRstrip ("Source: ".data ++ body) ≠ [] := pyRstrip_source_ne_nil body
  have hflbf : ∀ ch ∈ "Source: ".data ++ body, isBreak ch = false := by
    intro ch hch
    rcases List.mem_append.mp hch with h | h
    · have : ∀ d ∈ "Source: ".data, isBreak d = false := by decide
      exact this ch h
    · exact hbf ch h
  have hfl'bf : ∀ ch ∈ pyRstrip ("Source: ".data ++ body), isBreak ch = false :=
    fun ch hch => hflbf ch (mem_pyRstrip ch _ hch)
  have h1 : pyRstrip (_strip_existing_source x ++ '\n' :: ("Source: ".data ++ body)) =
      _strip_existing_source x ++ '\n' :: pyRstrip ("Source: ".data ++ body) := by
    have hnl : pyRstrip ('\n' :: ("Source: ".data ++ body)) =
        '\n' :: pyRstrip ("Source: ".data ++ body) := pyRstrip_cons '\n' _ hflrs
    rw [pyRstrip_append _ ('\n' :: ("Source: ".data ++ body)) (by rw [hnl]; simp), hnl]
  have hfilter : List.filter (fun ln => !isSourceLine ln)
      [pyRstrip ("Source: ".data ++ body)] = [] := by
    rw [List.filter_cons, isSourceLine_footer body]
    simp
  show pyRstrip (joinNL (List.filter (fun ln => !isSourceLine ln)
      (pySplitlines (pyRstrip (_strip_existing_source x ++
        '\n' :: ("Source: ".data ++ body)))))) = _strip_existing_source x
  rw [h1, pySplitlines, if_neg (by simp),
    splitlinesGo_append_line (_strip_existing_source x) hLF hlast
      (pyRstrip ("Source: ".data ++ body)) hflrs hfl'bf [],
    List.filter_append, hfilter,
    List.append_nil,
    List.filter_eq_self.mpr (fun ln hln => by simp [hP ln hln]),
    joinNL_splitlinesGo (_strip_existing_source x) hLF hlast []]
  simpa using hrs

theorem C3_latency_observation_witness :
    (chatRun (Except.ok []) (Except.error ()) Metrics.init).1.ragLatObs =
        Metrics.init.ragLatObs + 1 ∧
      (chatRun (Except.ok []) (Except.error ()) Metrics.init).1.vllmLatObs =
        Metrics.init.vllmLatObs + 1 :=
  ⟨(C3_latency_observation (Except.ok []) (Except.error ()) Metrics.init).1,
    (C3_latency_observation (Except.ok []) (Except.error ()) Metrics.init).2.1 ⟨[], rfl⟩⟩

theorem C6_counterexample :
    finalize (finalize "".data ["a\nb".data]) ["a\nb".data] ≠
      finalize "".data ["a\nb".data] := by
  decide

theorem C6_finalize_idempotent (x : Str) (c : List Str)
    (hc : ∀ s ∈ c, ∀ ch ∈ s, isBreak ch = false) :
    finalize (finalize x c) c = finalize x c := by
  have hfoot : sourceFooter c =
      '\n' :: ("Source: ".data ++ (if c.isEmpty then "(none)".data else joinSemi c)) := by
    cases c with
    | nil => decide
    | cons s cs =>
      show "\nSource: ".data ++ joinSemi (s :: cs) =
        '\n' :: ("Source: ".data ++ joinSemi (s :: cs))
      rfl
  have hbodybf : ∀ ch ∈ (if c.isEmpty then "(none)".data else joinSemi c),
      isBreak ch = false := by
    by_cases hce : c.isEmpty
    · rw [if_pos hce]; decide
    · rw [if_neg hce]; exact joinSemi_breakFree c hc
  calc finalize (finalize x c) c
      = _strip_existing_source (_strip_existing_source x ++ sourceFooter c) ++
          sourceFooter c := rfl
    _ = _strip_existing_source (_strip_existing_source x ++
          '\n' :: ("Source: ".data ++ (if c.isEmpty then "(none)".data else joinSemi c))) ++
          sourceFooter c := by rw [hfoot]
    _ = _strip_existing_source x ++ sourceFooter c := by
          rw [stripSource_append_footer x _ hbodybf]
    _ = finalize x c := rfl

theorem C6_finalize_idempotent_witness :
    (∀ s ∈ ["A".data, "B#x".data], ∀ ch ∈ s, isBreak ch = false) ∧
      finalize (finalize "hi\nSource: old".data ["A".data, "B#x".data])
          ["A".data, "B#x".data] =
        finalize "hi\nSource: old".data ["A".data, "B#x".data] :=
  ⟨by decide, C6_finalize_idempotent "hi\nSource: old".data ["A".data, "B#x".data] (by decide)⟩

end ChatApi
